import Mathlib

/-!
Shallow embedding of `src/solver3.py` (`solve_timetable_debug`): a CP-SAT
timetable model.  Decision variables are booleans keyed by
`(batch, subject, day, slot, room)`; every constraint instance carries one
bounded integer slack variable; the objective is the unweighted sum of all
slacks; after a solve the nonzero slacks are reported as violations and the
true decision variables are extracted into a row table sorted by
(Batch, Day, Slot).
-/

namespace Solver3

/-- The fixed day grid of the source (`days = ["Mon", ..., "Fri"]`). -/
def days : List String := ["Mon", "Tue", "Wed", "Thu", "Fri"]

/-- The fixed slot grid of the source (`slots = [1, 2, 3, 4, 5]`). -/
def slots : List Nat := [1, 2, 3, 4, 5]

/-- Decision-variable key `(batch, subj, day, slot, room)`, the tuple used
to index the `x` dictionary in the source. -/
abbrev Key := String × String × String × Nat × String

/-- One entry of the `subjects` dict: `{batch, teacher, sessions_per_week}`. -/
structure SubjInfo where
  batch : String
  teacher : String
  sessions_per_week : Nat
deriving DecidableEq

/-- One entry of the `teachers` dict: `{max_load}`. -/
structure TeacherInfo where
  max_load : Nat
deriving DecidableEq

/-- The arguments of `solve_timetable_debug`; Python dicts become
association lists in insertion order. -/
structure Input where
  rooms : List String
  batches : List String
  subjects : List (String × SubjInfo)
  teachers : List (String × TeacherInfo)
  fixed_classes : List Key
  max_classes_per_day : Nat

/-- Keys of the decision-variable dict `x`, in creation order
(`for subj, info in subjects: for d in days: for s in slots: for r in rooms`). -/
def xKeys (inp : Input) : List Key :=
  inp.subjects.flatMap fun si =>
    days.flatMap fun d =>
      slots.flatMap fun s =>
        inp.rooms.map fun r => (si.2.batch, si.1, d, s, r)

/-- Relation of a constraint instance: `sum lhs + slack = rhs` or
`sum lhs ≤ rhs + slack`. -/
inductive Rel where
  | eqR
  | leR
deriving DecidableEq

/-- One constraint instance together with its `slack_vars` bookkeeping entry
`(kind, who, ctx)` and the slack bound `[0, slackUB]` of its
`model.NewIntVar(0, slackUB, ...)` slack variable. -/
structure ConstraintInst where
  kind : String
  who : String
  ctx : String
  lhs : List Key
  rel : Rel
  rhs : Nat
  slackUB : Nat
deriving DecidableEq

/-- The `f"{d}-{s}"` context label. -/
def ctxDS (d : String) (s : Nat) : String := d ++ "-" ++ toString s

/-- Left-hand side of the subject-weekly constraint: all of the subject's
decision variables (`for d in days for s in slots for r in rooms`). -/
def subjectLhs (inp : Input) (subj : String) (info : SubjInfo) : List Key :=
  days.flatMap fun d =>
    slots.flatMap fun s =>
      inp.rooms.map fun r => (info.batch, subj, d, s, r)

/-- The subject-weekly constraint of one subject:
`sum + slack == sessions_per_week`, slack in `[0, 10]`,
recorded as `("Subject", subj, batch, slack)`. -/
def mkSubjC (inp : Input) (si : String × SubjInfo) : ConstraintInst :=
  ⟨"Subject", si.1, si.2.batch, subjectLhs inp si.1 si.2, Rel.eqR,
    si.2.sessions_per_week, 10⟩

/-- The subject-weekly block, one instance per subject. -/
def subjectConsL (inp : Input) : List ConstraintInst :=
  inp.subjects.map (mkSubjC inp)

/-- Left-hand side of a batch-clash constraint: decision variables of all
subjects belonging to `b`, across all rooms, at `(d, s)`. -/
def batchLhs (inp : Input) (b : String) (d : String) (s : Nat) : List Key :=
  (inp.subjects.filter fun si => si.2.batch == b).flatMap fun si =>
    inp.rooms.map fun r => (b, si.1, d, s, r)

/-- One batch-clash instance: `sum ≤ 1 + slack`, slack in `[0, 1]`,
recorded as `("BatchClash", batch, f"{d}-{s}", slack)`. -/
def mkBatchC (inp : Input) (b : String) (d : String) (s : Nat) : ConstraintInst :=
  ⟨"BatchClash", b, ctxDS d s, batchLhs inp b d s, Rel.leR, 1, 1⟩

/-- The batch-clash block, one instance per batch × day × slot. -/
def batchConsL (inp : Input) : List ConstraintInst :=
  inp.batches.flatMap fun b =>
    days.flatMap fun d =>
      slots.map fun s => mkBatchC inp b d s

/-- Left-hand side of a room-clash constraint: one decision variable per
subject (under its own batch) at `(d, s, r)`. -/
def roomLhs (inp : Input) (r : String) (d : String) (s : Nat) : List Key :=
  inp.subjects.map fun si => (si.2.batch, si.1, d, s, r)

/-- One room-clash instance: `sum ≤ 1 + slack`, slack in `[0, 1]`,
recorded as `("RoomClash", r, f"{d}-{s}", slack)`. -/
def mkRoomC (inp : Input) (r : String) (d : String) (s : Nat) : ConstraintInst :=
  ⟨"RoomClash", r, ctxDS d s, roomLhs inp r d s, Rel.leR, 1, 1⟩

/-- The room-clash block, one instance per room × day × slot. -/
def roomConsL (inp : Input) : List ConstraintInst :=
  inp.rooms.flatMap fun r =>
    days.flatMap fun d =>
      slots.map fun s => mkRoomC inp r d s

/-- Left-hand side of a teacher weekly-load constraint: decision variables
of all subjects taught by `t`, across all days, slots and rooms. -/
def teacherWeekLhs (inp : Input) (t : String) : List Key :=
  (inp.subjects.filter fun si => si.2.teacher == t).flatMap fun si =>
    days.flatMap fun d =>
      slots.flatMap fun s =>
        inp.rooms.map fun r => (si.2.batch, si.1, d, s, r)

/-- One teacher weekly-load instance: `sum ≤ max_load + slack`, slack in
`[0, 20]`, recorded as `("TeacherWeek", teacher, "All", slack)`. -/
def mkTWeekC (inp : Input) (t : String) (tinfo : TeacherInfo) : ConstraintInst :=
  ⟨"TeacherWeek", t, "All", teacherWeekLhs inp t, Rel.leR, tinfo.max_load, 20⟩

/-- Left-hand side of a teacher daily-load constraint: decision variables of
all subjects taught by `t`, at day `d`, across slots and rooms. -/
def teacherDayLhs (inp : Input) (t : String) (d : String) : List Key :=
  (inp.subjects.filter fun si => si.2.teacher == t).flatMap fun si =>
    slots.flatMap fun s =>
      inp.rooms.map fun r => (si.2.batch, si.1, d, s, r)

/-- One teacher daily-load instance: `sum ≤ max_classes_per_day + slack`,
slack in `[0, 5]`, recorded as `("TeacherDay", teacher, d, slack)`. -/
def mkTDayC (inp : Input) (t : String) (d : String) : ConstraintInst :=
  ⟨"TeacherDay", t, d, teacherDayLhs inp t d, Rel.leR, inp.max_classes_per_day, 5⟩

/-- The teacher block: per teacher, the weekly instance followed by the five
daily instances (matching the append order of `slack_vars`). -/
def teacherConsL (inp : Input) : List ConstraintInst :=
  inp.teachers.flatMap fun ti =>
    mkTWeekC inp ti.1 ti.2 :: days.map (mkTDayC inp ti.1)

/-- One fixed-class instance: `x[key] + slack == 1`, slack in `[0, 1]`,
recorded as `("FixedClass", batch, f"{subj}-{d}-{s}", slack)`. -/
def mkFixedC (fc : Key) : ConstraintInst :=
  ⟨"FixedClass", fc.1, fc.2.1 ++ "-" ++ fc.2.2.1 ++ "-" ++ toString fc.2.2.2.1,
    [fc], Rel.eqR, 1, 1⟩

/-- The fixed-class block.  The source looks each tuple up in the `x` dict
(`lhs = x[(batch, subj, d, s, r)]`); a tuple with no corresponding decision
variable raises `KeyError` carrying the offending key, modelled as
`Except.error`. -/
def fixedCons (inp : Input) : Except Key (List ConstraintInst) :=
  inp.fixed_classes.foldlM
    (fun acc fc =>
      if fc ∈ xKeys inp then Except.ok (acc ++ [mkFixedC fc])
      else Except.error fc)
    []

/-- The full constraint system of `solve_timetable_debug`, in the order the
source appends to `slack_vars`; errors if a fixed-class tuple references a
missing decision variable. -/
def buildModel (inp : Input) : Except Key (List ConstraintInst) :=
  match fixedCons inp with
  | Except.error k => Except.error k
  | Except.ok fl =>
      Except.ok (subjectConsL inp ++ batchConsL inp ++ roomConsL inp ++
        teacherConsL inp ++ fl)

/-- Value of a linear sum of decision variables under a boolean assignment
(a repeated key is summed with multiplicity, as in the Python `sum`). -/
def sumLhs (xval : Key → Bool) (lhs : List Key) : Nat :=
  (lhs.map fun k => if xval k then 1 else 0).sum

/-- Whether one constraint instance is satisfied when its slack variable
takes value `s`. -/
def satCb (xval : Key → Bool) (c : ConstraintInst) (s : Nat) : Bool :=
  decide (s ≤ c.slackUB) &&
    match c.rel with
    | Rel.eqR => decide (sumLhs xval c.lhs + s = c.rhs)
    | Rel.leR => decide (sumLhs xval c.lhs ≤ c.rhs + s)

/-- Whether `(xval, slacks)` is a satisfying assignment of the model:
`slacks` lists the value of each constraint's slack variable, in the
`slack_vars` order. -/
def satModel (cs : List ConstraintInst) (xval : Key → Bool) (slacks : List Nat) : Bool :=
  (slacks.length == cs.length) &&
    (cs.zip slacks).all fun p => satCb xval p.1 p.2

/-- The diagnostic report: one `(kind, who, ctx, magnitude)` entry per slack
variable whose realized value is positive, in `slack_vars` order (the
`if val > 0: print(...)` loop). -/
def violations (cs : List ConstraintInst) (slacks : List Nat) :
    List (String × String × String × Nat) :=
  (cs.zip slacks).filterMap fun p =>
    if 0 < p.2 then some (p.1.kind, p.1.who, p.1.ctx, p.2) else none

/-- The declared objective: `sum(s for _, _, _, s in slack_vars)`, evaluated
at the realized slack values. -/
def objective (cs : List ConstraintInst) (slacks : List Nat) : Nat :=
  ((cs.zip slacks).map fun p => p.2).sum

/-- One output row of the timetable. -/
structure Row where
  day : String
  slot : Nat
  batch : String
  subject : String
  teacher : String
  room : String
deriving DecidableEq

/-- The decision-variable key the extraction loop looks up for a row. -/
def keyOfRow (row : Row) : Key :=
  (row.batch, row.subject, row.day, row.slot, row.room)

/-- Innermost extraction level: the rows visited for fixed day, slot, batch
and subject, one per room. -/
def entsR (inp : Input) (d : String) (s : Nat) (b : String)
    (si : String × SubjInfo) : List Row :=
  inp.rooms.map fun r => ⟨d, s, b, si.1, si.2.teacher, r⟩

/-- Extraction level over subjects. -/
def entsS (inp : Input) (d : String) (s : Nat) (b : String) : List Row :=
  inp.subjects.flatMap fun si => entsR inp d s b si

/-- Extraction level over batches. -/
def entsB (inp : Input) (d : String) (s : Nat) : List Row :=
  inp.batches.flatMap fun b => entsS inp d s b

/-- Extraction level over slots. -/
def entsSlot (inp : Input) (d : String) : List Row :=
  slots.flatMap fun s => entsB inp d s

/-- All candidate rows visited by the extraction loop, in loop order
(`for d: for s: for batch in batches: for subj, info: for r`). -/
def extractEntries (inp : Input) : List Row :=
  days.flatMap fun d => entsSlot inp d

/-- One step of the extraction loop: look the key up in `x` (KeyError when
absent, modelled as `Except.error`) and append the row when the decision
variable is realized true. -/
def extractStep (inp : Input) (xval : Key → Bool) (acc : List Row) (row : Row) :
    Except Key (List Row) :=
  if keyOfRow row ∈ xKeys inp then
    if xval (keyOfRow row) then Except.ok (acc ++ [row]) else Except.ok acc
  else Except.error (keyOfRow row)

/-- The timetable-building loop of the source. -/
def extractTable (inp : Input) (xval : Key → Bool) : Except Key (List Row) :=
  (extractEntries inp).foldlM (extractStep inp xval) []

/-- Comparison used for the final `df.sort_values(["Batch", "Day", "Slot"])`. -/
def rowLeB (a b : Row) : Bool :=
  match compare a.batch b.batch with
  | Ordering.lt => true
  | Ordering.gt => false
  | Ordering.eq =>
    match compare a.day b.day with
    | Ordering.lt => true
    | Ordering.gt => false
    | Ordering.eq => decide (a.slot ≤ b.slot)

/-- Insertion of a row into a sorted list of rows. -/
def insertRow (r : Row) : List Row → List Row
  | [] => [r]
  | a :: t => if rowLeB r a then r :: a :: t else a :: insertRow r t

/-- Sorting of the extracted rows by (Batch, Day, Slot). -/
def sortRows : List Row → List Row
  | [] => []
  | a :: t => insertRow a (sortRows t)

/-- The status reported by the external CP-SAT solve. -/
inductive SolveStatus where
  | optimal
  | feasible
  | infeasible
  | modelInvalid
  | unknown
deriving DecidableEq

/-- The black-box solver outcome: a status plus the realized values of the
decision and slack variables (`solver.Value`). -/
structure SolverResult where
  status : SolveStatus
  xval : Key → Bool
  slacks : List Nat

/-- An uncaught Python `KeyError`: either a missing decision-variable tuple
in the `x` dict, or a missing column name raised by
`df.sort_values(["Batch", "Day", "Slot"])` when the timetable list is empty
(`pd.DataFrame([])` has no columns, so pandas raises `KeyError: 'Batch'`). -/
inductive PyError where
  | keyErr (k : Key)
  | colErr (col : String)
deriving DecidableEq

/-- `solve_timetable_debug`: build the model (KeyError on a malformed
fixed-class reference), solve, return `none` when the status is neither
OPTIMAL nor FEASIBLE, and otherwise extract the table (KeyError when a
(batch, subject) pair visited by the loop has no decision variable) and
return it sorted by (Batch, Day, Slot).  When the extraction loop collects
no rows, `pd.DataFrame(timetable)` has no columns and
`df.sort_values(["Batch", "Day", "Slot"])` raises `KeyError: 'Batch'`. -/
def solve_timetable_debug (inp : Input) (res : SolverResult) :
    Except PyError (Option (List Row)) :=
  match buildModel inp with
  | Except.error k => Except.error (PyError.keyErr k)
  | Except.ok _ =>
    if res.status = SolveStatus.optimal ∨ res.status = SolveStatus.feasible then
      match extractTable inp res.xval with
      | Except.error k => Except.error (PyError.keyErr k)
      | Except.ok [] => Except.error (PyError.colErr "Batch")
      | Except.ok rows => Except.ok (some (sortRows rows))
    else Except.ok none

/-- The constraint list produced when every fixed-class reference is valid. -/
def fullCons (inp : Input) : List ConstraintInst :=
  subjectConsL inp ++ batchConsL inp ++ roomConsL inp ++ teacherConsL inp ++
    inp.fixed_classes.map mkFixedC

/-- A slack vector that trivially satisfies every constraint when no class
is scheduled: the full right-hand side for an equality, zero for an
inequality. -/
def slackFill (cs : List ConstraintInst) : List Nat :=
  cs.map fun c =>
    match c.rel with
    | Rel.eqR => c.rhs
    | Rel.leR => 0

/-! ### Concrete instances used to exercise the theorems -/

/-- Subject record of the reference `Math` subject (3 weekly sessions). -/
def infoMath : SubjInfo := ⟨"B1", "T1", 3⟩

/-- A well-formed input: one room, one batch, one subject, one teacher, one
valid fixed class. -/
def inpM : Input :=
  ⟨["R1"], ["B1"], [("Math", infoMath)], [("T1", ⟨12⟩)],
    [("B1", "Math", "Mon", 1, "R1")], 5⟩

/-- The constraint system of `inpM`. -/
def csM : List ConstraintInst := fullCons inpM

/-- A zero-violation schedule for `inpM`: `Math` on Mon/Tue/Wed slot 1. -/
def xvalW : Key → Bool := fun k =>
  decide (k = ("B1", "Math", "Mon", 1, "R1") ∨ k = ("B1", "Math", "Tue", 1, "R1") ∨
    k = ("B1", "Math", "Wed", 1, "R1"))

/-- All-zero slack vector for `csM` (58 constraint instances). -/
def slacksW : List Nat := List.replicate 58 0

/-- A solver outcome with no solution found. -/
def resU : SolverResult := ⟨SolveStatus.unknown, fun _ => false, []⟩

/-- An OPTIMAL solver outcome realizing `xvalW` on `inpM`. -/
def resOptW : SolverResult := ⟨SolveStatus.optimal, xvalW, slacksW⟩

/-- `inpM` with a fixed class referencing batch `B2`, which matches no
decision variable. -/
def inpBadFixed : Input :=
  ⟨["R1"], ["B1"], [("Math", infoMath)], [("T1", ⟨12⟩)],
    [("B2", "Math", "Mon", 1, "R1")], 5⟩

/-- One subject demanding 26 weekly sessions with a single room: one more
than the 25 available day/slot/room combinations. -/
def inp9 : Input := ⟨["R1"], ["B1"], [("Math", ⟨"B1", "T1", 26⟩)], [], [], 5⟩

/-- The constraint system of `inp9` (1 + 25 + 25 instances). -/
def cs9 : List ConstraintInst := fullCons inp9

/-- A schedule with 16 `Math` sessions (Mon-Thu, slots 1-4). -/
def xval9 : Key → Bool := fun k =>
  decide (k ∈ (["Mon", "Tue", "Wed", "Thu"].flatMap fun d =>
    [1, 2, 3, 4].map fun s => (("B1", "Math", d, s, "R1") : Key)))

/-- Slack vector for `cs9`: subject slack at its bound 10, the rest zero. -/
def slacks9 : List Nat := 10 :: List.replicate 50 0

/-- One subject demanding 36 weekly sessions with a single room: more than
25 sessions plus the slack bound 10 can absorb. -/
def inpInf : Input := ⟨["R1"], ["B1"], [("Math", ⟨"B1", "T1", 36⟩)], [], [], 5⟩

/-- The constraint system of `inpInf`. -/
def csInf : List ConstraintInst := fullCons inpInf

/-- A subject whose declared batch `B1` does not appear in the (empty)
`batches` argument. -/
def inpOrphan : Input := ⟨["R1"], [], [("Math", ⟨"B1", "T1", 1⟩)], [], [], 5⟩

/-- The constraint system of `inpOrphan` (1 + 25 instances). -/
def csOrphan : List ConstraintInst := fullCons inpOrphan

/-- Assignment scheduling the orphan subject's Mon/1/R1 session. -/
def xvalO : Key → Bool := fun k => decide (k = ("B1", "Math", "Mon", 1, "R1"))

/-- All-zero slack vector for `csOrphan`. -/
def slacksO : List Nat := 0 :: List.replicate 25 0

/-- An OPTIMAL solver outcome realizing `xvalO` on `inpOrphan`. -/
def resO : SolverResult := ⟨SolveStatus.optimal, xvalO, slacksO⟩

/-! ### Generic list helpers -/

theorem count_flatMap {α β : Type} [DecidableEq β] (l : List α) (f : α → List β)
    (b : β) : (l.flatMap f).count b = (l.map fun a => (f a).count b).sum := by
  induction l with
  | nil => rfl
  | cons a t ih => simp [List.flatMap_cons, List.count_append, ih]

theorem sum_map_single {α : Type} (l : List α) (h : α → Nat) (a0 : α)
    (hnd : l.Nodup) (hm : a0 ∈ l) (hz : ∀ a ∈ l, a ≠ a0 → h a = 0) :
    (l.map h).sum = h a0 := by
  induction l with
  | nil => cases hm
  | cons a t ih =>
    rcases List.mem_cons.mp hm with rfl | hmt
    · have ht : ∀ x ∈ t, h x = 0 := by
        intro x hx
        exact hz x (List.mem_cons_of_mem _ hx)
          (fun he => (List.nodup_cons.mp hnd).1 (he ▸ hx))
      have : (t.map h).sum = 0 := by
        apply List.sum_eq_zero
        intro x hx
        rcases List.mem_map.mp hx with ⟨y, hy, rfl⟩
        exact ht y hy
      simp [this]
    · have ha : h a = 0 :=
        hz a (List.mem_cons_self a t) (fun he => (List.nodup_cons.mp hnd).1 (he ▸ hmt))
      have := ih (List.nodup_cons.mp hnd).2 hmt
        (fun x hx hne => hz x (List.mem_cons_of_mem _ hx) hne)
      simp [ha, this]

theorem exists_zip_of_mem {α β : Type} :
    ∀ {l1 : List α} {l2 : List β} {a : α}, l1.length = l2.length → a ∈ l1 →
      ∃ b, (a, b) ∈ l1.zip l2 := by
  intro l1
  induction l1 with
  | nil => intro l2 a _ hm; cases hm
  | cons x t ih =>
    intro l2 a hlen hm
    cases l2 with
    | nil => cases hlen
    | cons y t2 =>
      rcases List.mem_cons.mp hm with rfl | hmt
      · exact ⟨y, List.mem_cons_self _ _⟩
      · rcases ih (Nat.succ_injective hlen) hmt with ⟨b, hb⟩
        exact ⟨b, List.mem_cons_of_mem _ hb⟩

theorem get_mem_zip {α β : Type} :
    ∀ {l1 : List α} {l2 : List β} (i : Nat) (h1 : i < l1.length)
      (h2 : i < l2.length), (l1.get ⟨i, h1⟩, l2.get ⟨i, h2⟩) ∈ l1.zip l2 := by
  intro l1
  induction l1 with
  | nil => intro l2 i h1; cases h1
  | cons a t ih =>
    intro l2 i h1 h2
    cases l2 with
    | nil => cases h2
    | cons b t2 =>
      cases i with
      | zero => exact List.mem_cons_self _ _
      | succ j =>
        exact List.mem_cons_of_mem _
          (ih j (Nat.lt_of_succ_lt_succ h1) (Nat.lt_of_succ_lt_succ h2))

theorem assoc_uniq {β : Type} {l : List (String × β)} {p q : String × β}
    (hnd : (l.map Prod.fst).Nodup) (hp : p ∈ l) (hq : q ∈ l) (hk : p.1 = q.1) :
    p = q := by
  induction l with
  | nil => cases hp
  | cons a t ih =>
    rw [List.map_cons, List.nodup_cons] at hnd
    rcases List.mem_cons.mp hp with rfl | hpt
    · rcases List.mem_cons.mp hq with rfl | hqt
      · rfl
      · exact absurd (List.mem_map.mpr ⟨q, hqt, hk.symm⟩) hnd.1
    · rcases List.mem_cons.mp hq with rfl | hqt
      · exact absurd (List.mem_map.mpr ⟨p, hpt, hk⟩) hnd.1
      · exact ih hnd.2 hpt hqt

/-! ### Facts about satisfying assignments -/

theorem sumLhs_le_length (xval : Key → Bool) (lhs : List Key) :
    sumLhs xval lhs ≤ lhs.length := by
  induction lhs with
  | nil => simp [sumLhs]
  | cons k t ih =>
    simp only [sumLhs, List.map_cons, List.sum_cons, List.length_cons] at *
    by_cases h : xval k <;> simp [h] <;> omega

theorem sumLhs_false (lhs : List Key) : sumLhs (fun _ => false) lhs = 0 := by
  induction lhs with
  | nil => rfl
  | cons k t ih => simp [sumLhs] at ih ⊢

theorem satCb_eqR {xval : Key → Bool} {c : ConstraintInst} {s : Nat}
    (h : c.rel = Rel.eqR) :
    satCb xval c s = true ↔ s ≤ c.slackUB ∧ sumLhs xval c.lhs + s = c.rhs := by
  simp [satCb, h]

theorem satCb_leR {xval : Key → Bool} {c : ConstraintInst} {s : Nat}
    (h : c.rel = Rel.leR) :
    satCb xval c s = true ↔ s ≤ c.slackUB ∧ sumLhs xval c.lhs ≤ c.rhs + s := by
  simp [satCb, h]

theorem satModel_length {cs : List ConstraintInst} {xval : Key → Bool}
    {slacks : List Nat} (h : satModel cs xval slacks = true) :
    slacks.length = cs.length := by
  have := (Bool.and_eq_true _ _).mp h
  simpa using this.1

theorem satModel_sat_of_mem {cs : List ConstraintInst} {xval : Key → Bool}
    {slacks : List Nat} {c : ConstraintInst}
    (h : satModel cs xval slacks = true) (hc : c ∈ cs) :
    ∃ s, (c, s) ∈ cs.zip slacks ∧ satCb xval c s = true := by
  have hlen := satModel_length h
  have hall := (Bool.and_eq_true _ _).mp h |>.2
  rcases exists_zip_of_mem hlen.symm hc with ⟨s, hs⟩
  exact ⟨s, hs, List.all_eq_true.mp hall _ hs⟩

/-! ### Structure of the built model -/

theorem fixedCons_go_ok {inp : Input} :
    ∀ (l : List Key) (acc fl : List ConstraintInst),
      l.foldlM
        (fun acc fc =>
          if fc ∈ xKeys inp then Except.ok (acc ++ [mkFixedC fc])
          else Except.error fc) acc = Except.ok fl →
      fl = acc ++ l.map mkFixedC := by
  intro l
  induction l with
  | nil =>
    intro acc fl h
    have h' : (Except.ok acc : Except Key (List ConstraintInst)) = Except.ok fl := h
    injection h' with h''
    simp [h'']
  | cons fc t ih =>
    intro acc fl h
    simp only [List.foldlM] at h
    by_cases hv : fc ∈ xKeys inp
    · rw [if_pos hv] at h
      have := ih (acc ++ [mkFixedC fc]) fl h
      simp [this]
    · rw [if_neg hv] at h
      cases h

theorem fixedCons_ok {inp : Input} {fl : List ConstraintInst}
    (h : fixedCons inp = Except.ok fl) :
    fl = inp.fixed_classes.map mkFixedC := by
  have := fixedCons_go_ok inp.fixed_classes [] fl h
  simpa using this

theorem fixedCons_go_error {inp : Input} :
    ∀ (l : List Key) (acc : List ConstraintInst) (fc : Key), fc ∈ l →
      fc ∉ xKeys inp →
      ∃ k, l.foldlM
        (fun acc fc =>
          if fc ∈ xKeys inp then Except.ok (acc ++ [mkFixedC fc])
          else Except.error fc) acc = Except.error k ∧
        k ∈ l ∧ k ∉ xKeys inp := by
  intro l
  induction l with
  | nil => intro acc fc h; cases h
  | cons a t ih =>
    intro acc fc hm hbad
    by_cases hv : a ∈ xKeys inp
    · rcases List.mem_cons.mp hm with rfl | hmt
      · exact absurd hv hbad
      · rcases ih (acc ++ [mkFixedC a]) fc hmt hbad with ⟨k, hk, hkm, hkb⟩
        refine ⟨k, ?_, List.mem_cons_of_mem _ hkm, hkb⟩
        simp only [List.foldlM, if_pos hv]
        exact hk
    · refine ⟨a, ?_, List.mem_cons_self _ _, hv⟩
      simp only [List.foldlM, if_neg hv]
      rfl

theorem buildModel_ok_eq {inp : Input} {cs : List ConstraintInst}
    (h : buildModel inp = Except.ok cs) : cs = fullCons inp := by
  unfold buildModel at h
  cases hf : fixedCons inp with
  | error k => rw [hf] at h; cases h
  | ok fl =>
    rw [hf] at h
    cases h
    rw [fixedCons_ok hf]
    rfl

theorem buildModel_error {inp : Input} {fc : Key}
    (hm : fc ∈ inp.fixed_classes) (hbad : fc ∉ xKeys inp) :
    ∃ k, buildModel inp = Except.error k ∧ k ∈ inp.fixed_classes ∧
      k ∉ xKeys inp := by
  rcases fixedCons_go_error inp.fixed_classes [] fc hm hbad with ⟨k, hk, hkm, hkb⟩
  refine ⟨k, ?_, hkm, hkb⟩
  unfold buildModel fixedCons
  rw [hk]

theorem mem_fullCons_subj {inp : Input} {si : String × SubjInfo}
    (h : si ∈ inp.subjects) : mkSubjC inp si ∈ fullCons inp := by
  unfold fullCons
  exact List.mem_append_left _ (List.mem_append_left _ (List.mem_append_left _
    (List.mem_append_left _ (List.mem_map.mpr ⟨si, h, rfl⟩))))

theorem mem_fullCons_batch {inp : Input} {b : String} {d : String} {s : Nat}
    (hb : b ∈ inp.batches) (hd : d ∈ days) (hs : s ∈ slots) :
    mkBatchC inp b d s ∈ fullCons inp := by
  unfold fullCons
  apply List.mem_append_left
  apply List.mem_append_left
  apply List.mem_append_left
  apply List.mem_append_right
  unfold batchConsL
  exact List.mem_flatMap.mpr ⟨b, hb, List.mem_flatMap.mpr
    ⟨d, hd, List.mem_map.mpr ⟨s, hs, rfl⟩⟩⟩

theorem kind_subjC {inp : Input} {c : ConstraintInst}
    (h : c ∈ subjectConsL inp) : c.kind = "Subject" ∧ c.rel = Rel.eqR := by
  rcases List.mem_map.mp h with ⟨si, _, rfl⟩
  exact ⟨rfl, rfl⟩

theorem kind_batchC {inp : Input} {c : ConstraintInst}
    (h : c ∈ batchConsL inp) : c.kind = "BatchClash" ∧ c.rel = Rel.leR := by
  unfold batchConsL at h
  rcases List.mem_flatMap.mp h with ⟨b, _, h⟩
  rcases List.mem_flatMap.mp h with ⟨d, _, h⟩
  rcases List.mem_map.mp h with ⟨s, _, rfl⟩
  exact ⟨rfl, rfl⟩

theorem kind_roomC {inp : Input} {c : ConstraintInst}
    (h : c ∈ roomConsL inp) : c.kind = "RoomClash" ∧ c.rel = Rel.leR := by
  unfold roomConsL at h
  rcases List.mem_flatMap.mp h with ⟨r, _, h⟩
  rcases List.mem_flatMap.mp h with ⟨d, _, h⟩
  rcases List.mem_map.mp h with ⟨s, _, rfl⟩
  exact ⟨rfl, rfl⟩

theorem kind_teacherC {inp : Input} {c : ConstraintInst}
    (h : c ∈ teacherConsL inp) :
    (c.kind = "TeacherWeek" ∨ c.kind = "TeacherDay") ∧ c.rel = Rel.leR := by
  unfold teacherConsL at h
  rcases List.mem_flatMap.mp h with ⟨ti, _, h⟩
  rcases List.mem_cons.mp h with rfl | h
  · exact ⟨Or.inl rfl, rfl⟩
  · rcases List.mem_map.mp h with ⟨d, _, rfl⟩
    exact ⟨Or.inr rfl, rfl⟩

theorem kind_fixedC {inp : Input} {c : ConstraintInst}
    (h : c ∈ inp.fixed_classes.map mkFixedC) :
    c.kind = "FixedClass" ∧ c.rel = Rel.eqR ∧ c.rhs = 1 ∧ c.slackUB = 1 := by
  rcases List.mem_map.mp h with ⟨fc, _, rfl⟩
  exact ⟨rfl, rfl, rfl, rfl⟩

theorem violations_mem {cs : List ConstraintInst} {slacks : List Nat}
    {c : ConstraintInst} {s : Nat} (h : (c, s) ∈ cs.zip slacks) (hs : 0 < s) :
    (c.kind, c.who, c.ctx, s) ∈ violations cs slacks := by
  unfold violations
  exact List.mem_filterMap.mpr ⟨(c, s), h, by simp [hs]⟩

/-! ### The extraction loop -/

theorem mem_xKeys {inp : Input} {k : Key} :
    k ∈ xKeys inp ↔ ∃ si ∈ inp.subjects, ∃ d ∈ days, ∃ s ∈ slots,
      ∃ r ∈ inp.rooms, k = (si.2.batch, si.1, d, s, r) := by
  simp [xKeys, List.mem_flatMap, List.mem_map, eq_comm]

theorem mem_entsR_eq {inp : Input} {d : String} {s : Nat} {b : String}
    {si : String × SubjInfo} {row : Row} (h : row ∈ entsR inp d s b si) :
    row.day = d ∧ row.slot = s ∧ row.batch = b ∧ row.subject = si.1 ∧
      row.teacher = si.2.teacher ∧ row.room ∈ inp.rooms := by
  rcases List.mem_map.mp h with ⟨r, hr, rfl⟩
  exact ⟨rfl, rfl, rfl, rfl, rfl, hr⟩

theorem mem_entsS_eq {inp : Input} {d : String} {s : Nat} {b : String}
    {row : Row} (h : row ∈ entsS inp d s b) :
    row.day = d ∧ row.slot = s ∧ row.batch = b := by
  rcases List.mem_flatMap.mp h with ⟨si, _, h⟩
  exact ⟨(mem_entsR_eq h).1, (mem_entsR_eq h).2.1, (mem_entsR_eq h).2.2.1⟩

theorem mem_entsB_eq {inp : Input} {d : String} {s : Nat} {row : Row}
    (h : row ∈ entsB inp d s) :
    row.day = d ∧ row.slot = s ∧ row.batch ∈ inp.batches := by
  rcases List.mem_flatMap.mp h with ⟨b, hb, h⟩
  rcases mem_entsS_eq h with ⟨h1, h2, h3⟩
  exact ⟨h1, h2, h3 ▸ hb⟩

theorem mem_entsSlot_eq {inp : Input} {d : String} {row : Row}
    (h : row ∈ entsSlot inp d) : row.day = d ∧ row.batch ∈ inp.batches := by
  rcases List.mem_flatMap.mp h with ⟨s, _, h⟩
  exact ⟨(mem_entsB_eq h).1, (mem_entsB_eq h).2.2⟩

theorem mem_extractEntries_batch {inp : Input} {row : Row}
    (h : row ∈ extractEntries inp) : row.batch ∈ inp.batches := by
  rcases List.mem_flatMap.mp h with ⟨d, _, h⟩
  exact (mem_entsSlot_eq h).2

theorem mem_extractEntries_key {inp : Input} {row : Row}
    (h : row ∈ extractEntries inp) :
    ∃ si ∈ inp.subjects, row.subject = si.1 ∧ row.teacher = si.2.teacher ∧
      row.day ∈ days ∧ row.slot ∈ slots ∧ row.batch ∈ inp.batches ∧
      row.room ∈ inp.rooms := by
  rcases List.mem_flatMap.mp h with ⟨d, hd, h⟩
  rcases List.mem_flatMap.mp h with ⟨s, hs, h⟩
  rcases List.mem_flatMap.mp h with ⟨b, hb, h⟩
  rcases List.mem_flatMap.mp h with ⟨si, hsi, h⟩
  rcases mem_entsR_eq h with ⟨h1, h2, h3, h4, h5, h6⟩
  exact ⟨si, hsi, h4, h5, h1 ▸ hd, h2 ▸ hs, h3 ▸ hb, h6⟩

theorem extract_go_ok (inp : Input) (xval : Key → Bool) :
    ∀ (L : List Row), (∀ row ∈ L, keyOfRow row ∈ xKeys inp) →
      ∀ acc, L.foldlM (extractStep inp xval) acc =
        Except.ok (acc ++ L.filter fun row => xval (keyOfRow row)) := by
  intro L
  induction L with
  | nil =>
    intro _ acc
    simp [List.foldlM]
    rfl
  | cons row t ih =>
    intro hv acc
    have hk : keyOfRow row ∈ xKeys inp := hv row (List.mem_cons_self _ _)
    simp only [List.foldlM]
    by_cases hx : xval (keyOfRow row) = true
    · have hstep : extractStep inp xval acc row = Except.ok (acc ++ [row]) := by
        simp [extractStep, hk, hx]
      rw [hstep]
      show t.foldlM (extractStep inp xval) (acc ++ [row]) = _
      rw [ih (fun r hr => hv r (List.mem_cons_of_mem _ hr)) (acc ++ [row])]
      simp [List.filter_cons, hx]
    · have hstep : extractStep inp xval acc row = Except.ok acc := by
        simp [extractStep, hk, hx]
      rw [hstep]
      show t.foldlM (extractStep inp xval) acc = _
      rw [ih (fun r hr => hv r (List.mem_cons_of_mem _ hr)) acc]
      simp [List.filter_cons, hx]

theorem extract_go_error (inp : Input) (xval : Key → Bool) :
    ∀ (L : List Row) (row0 : Row), row0 ∈ L → keyOfRow row0 ∉ xKeys inp →
      ∀ acc, ∃ k, L.foldlM (extractStep inp xval) acc = Except.error k := by
  intro L
  induction L with
  | nil => intro row0 h; cases h
  | cons row t ih =>
    intro row0 hm hbad acc
    simp only [List.foldlM]
    by_cases hk : keyOfRow row ∈ xKeys inp
    · have hne : row0 ∈ t := by
        rcases List.mem_cons.mp hm with rfl | h
        · exact absurd hk hbad
        · exact h
      by_cases hx : xval (keyOfRow row) = true
      · have hstep : extractStep inp xval acc row = Except.ok (acc ++ [row]) := by
          simp [extractStep, hk, hx]
        rw [hstep]
        rcases ih row0 hne hbad (acc ++ [row]) with ⟨k, hk'⟩
        exact ⟨k, hk'⟩
      · have hstep : extractStep inp xval acc row = Except.ok acc := by
          simp [extractStep, hk, hx]
        rw [hstep]
        rcases ih row0 hne hbad acc with ⟨k, hk'⟩
        exact ⟨k, hk'⟩
    · refine ⟨keyOfRow row, ?_⟩
      have hstep : extractStep inp xval acc row = Except.error (keyOfRow row) := by
        simp [extractStep, hk]
      rw [hstep]
      rfl

theorem extractTable_ok (inp : Input) (xval : Key → Bool)
    (hv : ∀ row ∈ extractEntries inp, keyOfRow row ∈ xKeys inp) :
    extractTable inp xval =
      Except.ok ((extractEntries inp).filter fun row => xval (keyOfRow row)) := by
  have := extract_go_ok inp xval (extractEntries inp) hv []
  simpa [extractTable] using this

/-- The central multiplicity fact: a row whose components all come from the
input lists (with the batch of its own subject) occurs exactly once among
the candidate rows visited by the extraction loop. -/
theorem count_extractEntries {inp : Input} {subj0 : String} {info0 : SubjInfo}
    {d0 : String} {s0 : Nat} {r0 : String}
    (hndr : inp.rooms.Nodup) (hndb : inp.batches.Nodup)
    (hnds : (inp.subjects.map Prod.fst).Nodup)
    (hsi : (subj0, info0) ∈ inp.subjects) (hd : d0 ∈ days) (hs : s0 ∈ slots)
    (hr : r0 ∈ inp.rooms) (hb : info0.batch ∈ inp.batches) :
    (extractEntries inp).count
      ⟨d0, s0, info0.batch, subj0, info0.teacher, r0⟩ = 1 := by
  have hdaysnd : days.Nodup := by decide
  have hslotsnd : slots.Nodup := by decide
  have row0eq : (⟨d0, s0, info0.batch, subj0, info0.teacher, r0⟩ : Row).day = d0 ∧
      (⟨d0, s0, info0.batch, subj0, info0.teacher, r0⟩ : Row).slot = s0 ∧
      (⟨d0, s0, info0.batch, subj0, info0.teacher, r0⟩ : Row).batch = info0.batch ∧
      (⟨d0, s0, info0.batch, subj0, info0.teacher, r0⟩ : Row).subject = subj0 :=
    ⟨rfl, rfl, rfl, rfl⟩
  have hz1 : ∀ d ∈ days, d ≠ d0 →
      (entsSlot inp d).count ⟨d0, s0, info0.batch, subj0, info0.teacher, r0⟩ = 0 := by
    intro d _ hne
    refine List.count_eq_zero.mpr fun hmem => hne ?_
    have := (mem_entsSlot_eq hmem).1
    rw [row0eq.1] at this
    exact this.symm
  have hz2 : ∀ s ∈ slots, s ≠ s0 →
      (entsB inp d0 s).count ⟨d0, s0, info0.batch, subj0, info0.teacher, r0⟩ = 0 := by
    intro s _ hne
    refine List.count_eq_zero.mpr fun hmem => hne ?_
    have := (mem_entsB_eq hmem).2.1
    rw [row0eq.2.1] at this
    exact this.symm
  have hz3 : ∀ b ∈ inp.batches, b ≠ info0.batch →
      (entsS inp d0 s0 b).count ⟨d0, s0, info0.batch, subj0, info0.teacher, r0⟩ = 0 := by
    intro b _ hne
    refine List.count_eq_zero.mpr fun hmem => hne ?_
    have := (mem_entsS_eq hmem).2.2
    rw [row0eq.2.2.1] at this
    exact this.symm
  have hz4 : ∀ si ∈ inp.subjects, si ≠ (subj0, info0) →
      (entsR inp d0 s0 info0.batch si).count
        ⟨d0, s0, info0.batch, subj0, info0.teacher, r0⟩ = 0 := by
    intro si hsimem hne
    refine List.count_eq_zero.mpr fun hmem => hne ?_
    have h4 := (mem_entsR_eq hmem).2.2.2.1
    rw [row0eq.2.2.2] at h4
    exact assoc_uniq hnds hsimem hsi h4.symm
  rw [extractEntries, count_flatMap, sum_map_single days _ d0 hdaysnd hd hz1]
  rw [entsSlot, count_flatMap, sum_map_single slots _ s0 hslotsnd hs hz2]
  rw [entsB, count_flatMap, sum_map_single inp.batches _ info0.batch hndb hb hz3]
  rw [entsS, count_flatMap,
    sum_map_single inp.subjects _ (subj0, info0) (hnds.of_map) hsi hz4]
  have hinj : Function.Injective
      (fun r => (⟨d0, s0, info0.batch, subj0, info0.teacher, r⟩ : Row)) := by
    intro a b h
    simpa using h
  have hfr : (⟨d0, s0, info0.batch, subj0, info0.teacher, r0⟩ : Row) = (fun r =>
      (⟨d0, s0, info0.batch, subj0, info0.teacher, r⟩ : Row)) r0 := rfl
  rw [entsR, hfr, List.count_map_of_injective _ _ hinj]
  exact List.count_eq_one_of_mem hndr hr

/-! ### Sorting -/

theorem mem_extractEntries_intro {inp : Input} {d : String} {s : Nat}
    {b : String} {si : String × SubjInfo} {r : String} (hd : d ∈ days)
    (hs : s ∈ slots) (hb : b ∈ inp.batches) (hsi : si ∈ inp.subjects)
    (hr : r ∈ inp.rooms) :
    (⟨d, s, b, si.1, si.2.teacher, r⟩ : Row) ∈ extractEntries inp := by
  unfold extractEntries entsSlot entsB entsS entsR
  exact List.mem_flatMap.mpr ⟨d, hd, List.mem_flatMap.mpr ⟨s, hs,
    List.mem_flatMap.mpr ⟨b, hb, List.mem_flatMap.mpr ⟨si, hsi,
      List.mem_map.mpr ⟨r, hr, rfl⟩⟩⟩⟩⟩

/-! ### Lengths and the objective -/

theorem length_flatMap_const {α β : Type} (l : List α) (f : α → List β) (n : Nat)
    (h : ∀ a ∈ l, (f a).length = n) : (l.flatMap f).length = l.length * n := by
  induction l with
  | nil => simp
  | cons a t ih =>
    have ha := h a (List.mem_cons_self _ _)
    have ht := ih fun x hx => h x (List.mem_cons_of_mem _ hx)
    simp only [List.flatMap_cons, List.length_append, List.length_cons, ha, ht]
    ring

theorem subjectLhs_length (inp : Input) (subj : String) (info : SubjInfo) :
    (subjectLhs inp subj info).length = 25 * inp.rooms.length := by
  have inner : ∀ d ∈ days,
      ((slots.flatMap fun s =>
        inp.rooms.map fun r => ((info.batch, subj, d, s, r) : Key)).length) =
        5 * inp.rooms.length := by
    intro d _
    have hmap : ∀ s ∈ slots,
        ((inp.rooms.map fun r => ((info.batch, subj, d, s, r) : Key)).length) =
          inp.rooms.length := by
      intro s _
      simp
    rw [length_flatMap_const _ _ _ hmap]
    simp [slots]
  rw [subjectLhs, length_flatMap_const _ _ _ inner]
  simp [days]
  ring

theorem batchConsL_length (inp : Input) :
    (batchConsL inp).length = inp.batches.length * 25 := by
  have inner : ∀ b ∈ inp.batches,
      ((days.flatMap fun d => slots.map fun s => mkBatchC inp b d s).length) = 25 := by
    intro b _
    have hmap : ∀ d ∈ days, ((slots.map fun s => mkBatchC inp b d s).length) = 5 := by
      intro d _
      simp [slots]
    rw [length_flatMap_const _ _ _ hmap]
    simp [days]
  rw [batchConsL, length_flatMap_const _ _ _ inner]

theorem roomConsL_length (inp : Input) :
    (roomConsL inp).length = inp.rooms.length * 25 := by
  have inner : ∀ r ∈ inp.rooms,
      ((days.flatMap fun d => slots.map fun s => mkRoomC inp r d s).length) = 25 := by
    intro r _
    have hmap : ∀ d ∈ days, ((slots.map fun s => mkRoomC inp r d s).length) = 5 := by
      intro d _
      simp [slots]
    rw [length_flatMap_const _ _ _ hmap]
    simp [days]
  rw [roomConsL, length_flatMap_const _ _ _ inner]

theorem teacherConsL_length (inp : Input) :
    (teacherConsL inp).length = inp.teachers.length * 6 := by
  have inner : ∀ ti ∈ inp.teachers,
      ((mkTWeekC inp ti.1 ti.2 :: days.map (mkTDayC inp ti.1)).length) = 6 := by
    intro ti _
    simp [days]
  rw [teacherConsL, length_flatMap_const _ _ _ inner]

theorem fullCons_length (inp : Input) :
    (fullCons inp).length = inp.subjects.length + inp.batches.length * 25 +
      inp.rooms.length * 25 + inp.teachers.length * 6 +
      inp.fixed_classes.length := by
  simp only [fullCons, List.length_append, subjectConsL, List.length_map,
    batchConsL_length, roomConsL_length, teacherConsL_length]

theorem objective_eq_sum {cs : List ConstraintInst} {slacks : List Nat}
    (hlen : slacks.length = cs.length) : objective cs slacks = slacks.sum := by
  unfold objective
  have : ((cs.zip slacks).map fun p => p.2) = (cs.zip slacks).map Prod.snd := rfl
  rw [this, List.map_snd_zip cs slacks (le_of_eq hlen)]

theorem sum_set_add :
    ∀ (l : List Nat) (i : Nat) (h : i < l.length) (d : Nat),
      (l.set i (l.get ⟨i, h⟩ + d)).sum = l.sum + d := by
  intro l
  induction l with
  | nil => intro i h; cases h
  | cons a t ih =>
    intro i h d
    cases i with
    | zero => simp [List.set]; omega
    | succ j =>
      have hj : j < t.length := Nat.lt_of_succ_lt_succ h
      simp only [List.set, List.sum_cons, List.get]
      rw [ih j hj d]
      omega

theorem zip_map_self {α β : Type} (f : α → β) :
    ∀ (l : List α), l.zip (l.map f) = l.map fun a => (a, f a) := by
  intro l
  induction l with
  | nil => rfl
  | cons a t ih => simp [List.zip_cons_cons, ih]

theorem violations_length_aux :
    ∀ (ps : List (ConstraintInst × Nat)),
      ((ps.filterMap fun p =>
        if 0 < p.2 then some (p.1.kind, p.1.who, p.1.ctx, p.2) else none).length) =
      ((ps.map Prod.snd).filter fun v => decide (0 < v)).length := by
  intro ps
  induction ps with
  | nil => rfl
  | cons p t ih =>
    by_cases h : 0 < p.2
    · simp [List.filterMap_cons, List.filter_cons, h, ih]
    · simp [List.filterMap_cons, List.filter_cons, h, ih]

theorem violations_length {cs : List ConstraintInst} {slacks : List Nat}
    (hlen : slacks.length = cs.length) :
    (violations cs slacks).length =
      (slacks.filter fun v => decide (0 < v)).length := by
  unfold violations
  rw [violations_length_aux, List.map_snd_zip cs slacks (le_of_eq hlen)]

theorem insertRow_perm (r : Row) (l : List Row) : (insertRow r l).Perm (r :: l) := by
  induction l with
  | nil => exact List.Perm.refl _
  | cons a t ih =>
    unfold insertRow
    by_cases h : rowLeB r a = true
    · rw [if_pos h]
    · rw [if_neg h]
      exact (ih.cons a).trans (List.Perm.swap r a t)

theorem sortRows_perm (l : List Row) : (sortRows l).Perm l := by
  induction l with
  | nil => exact List.Perm.refl _
  | cons a t ih =>
    unfold sortRows
    exact (insertRow_perm a (sortRows t)).trans (ih.cons a)

/-! ### Claims -/

/-- C3: if any fixed-class tuple does not correspond to an existing decision
variable (unknown subject, batch not matching the subject's declared batch,
or day/slot/room outside the grid), `solve_timetable_debug` fails fast with
an error carrying the offending fixed-class reference — it never silently
ignores the entry and returns a table missing the pinned class. -/
theorem fixed_class_invalid_fails_fast (inp : Input) (res : SolverResult)
    (fc : Key) (hm : fc ∈ inp.fixed_classes) (hbad : fc ∉ xKeys inp) :
    ∃ k, solve_timetable_debug inp res = Except.error (PyError.keyErr k) ∧
      k ∈ inp.fixed_classes ∧ k ∉ xKeys inp := by
  rcases buildModel_error hm hbad with ⟨k, hk, hkm, hkb⟩
  refine ⟨k, ?_, hkm, hkb⟩
  unfold solve_timetable_debug
  rw [hk]

theorem fixed_class_invalid_fails_fast_witness :
    ∃ k, solve_timetable_debug inpBadFixed resU = Except.error (PyError.keyErr k) ∧
      k ∈ inpBadFixed.fixed_classes ∧ k ∉ xKeys inpBadFixed :=
  fixed_class_invalid_fails_fast inpBadFixed resU ("B2", "Math", "Mon", 1, "R1")
    (by decide) (by decide)

/-- C2 (counterexample): on `inpOrphan` (subject `Math` declared in batch
`B1`, but `B1` absent from the `batches` argument) the solver result `resO`
is a satisfying, OPTIMAL assignment whose decision variable
`("B1", "Math", "Mon", 1, "R1")` exists and is realized true, yet the
extraction loop (which iterates over `batches`) collects no rows, and the
function then crashes in `df.sort_values` (pandas `KeyError: 'Batch'` on
the column-less empty DataFrame) — no table containing a row for the true
decision variable is ever produced, refuting the claim. -/
theorem extraction_counterexample :
    satModel csOrphan xvalO slacksO = true ∧
    (("B1", "Math", "Mon", 1, "R1") : Key) ∈ xKeys inpOrphan ∧
    xvalO ("B1", "Math", "Mon", 1, "R1") = true ∧
    ("B1" : String) ∉ inpOrphan.batches ∧
    resO.status = SolveStatus.optimal ∧
    extractTable inpOrphan xvalO = Except.ok [] ∧
    solve_timetable_debug inpOrphan resO =
      Except.error (PyError.colErr "Batch") :=
  ⟨by decide, by decide, by decide, by decide, rfl, rfl, rfl⟩

/-- C2 (amended): extraction iterates `(day, slot, batch ∈ batches,
subject, room)` and looks every `(batch, subject)` pair up in the decision
dict.  When every subject's declared batch equals every listed batch, each
decision variable realized true yields exactly one row in the returned
table (Teacher looked up from the subject's declared teacher), and every
returned row's batch belongs to `batches` — so a subject whose declared
batch is not listed yields no rows.  But no empty table is ever returned:
when no decision variable visited by the loop is true, the function crashes
with pandas `KeyError: 'Batch'` while sorting the column-less empty
DataFrame; and when `rooms` is nonempty and some subject's declared batch
differs from some listed batch, extraction fails with a `KeyError` on the
decision-variable lookup instead of returning a table. -/
theorem extraction_rows (inp : Input) (res : SolverResult)
    (cs : List ConstraintInst) (hb : buildModel inp = Except.ok cs)
    (hst : res.status = SolveStatus.optimal ∨ res.status = SolveStatus.feasible)
    (hndr : inp.rooms.Nodup) (hndb : inp.batches.Nodup)
    (hnds : (inp.subjects.map Prod.fst).Nodup) :
    ((∀ b ∈ inp.batches, ∀ si ∈ inp.subjects, si.2.batch = b) →
      (∀ (subj : String) (info : SubjInfo), (subj, info) ∈ inp.subjects →
        ∀ d ∈ days, ∀ s ∈ slots, ∀ r ∈ inp.rooms, info.batch ∈ inp.batches →
          res.xval (info.batch, subj, d, s, r) = true →
            ∃ rows, solve_timetable_debug inp res = Except.ok (some rows) ∧
              rows.count ⟨d, s, info.batch, subj, info.teacher, r⟩ = 1 ∧
              (∀ row ∈ rows, row.batch ∈ inp.batches)) ∧
      ((∀ row ∈ extractEntries inp, res.xval (keyOfRow row) = false) →
        solve_timetable_debug inp res =
          Except.error (PyError.colErr "Batch"))) ∧
    (inp.rooms ≠ [] →
      (∃ b ∈ inp.batches, ∃ si ∈ inp.subjects, si.2.batch ≠ b) →
      ∃ k, solve_timetable_debug inp res = Except.error (PyError.keyErr k)) := by
  constructor
  · intro hmatch
    have hv : ∀ row ∈ extractEntries inp, keyOfRow row ∈ xKeys inp := by
      intro row hrow
      rcases mem_extractEntries_key hrow with ⟨si, hsi, hsubj, _, hd, hs, hbm, hr⟩
      have hbatch : si.2.batch = row.batch := hmatch row.batch hbm si hsi
      apply mem_xKeys.mpr
      refine ⟨si, hsi, row.day, hd, row.slot, hs, row.room, hr, ?_⟩
      unfold keyOfRow
      rw [hbatch, hsubj]
    constructor
    · intro subj info hmem d hd s hs r hr hbm hx
      have hrowmem : (⟨d, s, info.batch, subj, info.teacher, r⟩ : Row) ∈
          extractEntries inp :=
        mem_extractEntries_intro hd hs hbm hmem hr
      have hxr : (fun row => res.xval (keyOfRow row))
          (⟨d, s, info.batch, subj, info.teacher, r⟩ : Row) = true := hx
      have hfmem : (⟨d, s, info.batch, subj, info.teacher, r⟩ : Row) ∈
          (extractEntries inp).filter fun row => res.xval (keyOfRow row) :=
        List.mem_filter.mpr ⟨hrowmem, hxr⟩
      cases hf : (extractEntries inp).filter
          (fun row => res.xval (keyOfRow row)) with
      | nil =>
        rw [hf] at hfmem
        cases hfmem
      | cons a t =>
        refine ⟨sortRows (a :: t), ?_, ?_, ?_⟩
        · unfold solve_timetable_debug
          rw [hb, if_pos hst, extractTable_ok inp res.xval hv, hf]
        · rw [(sortRows_perm _).count_eq, ← hf]
          have hcf : (List.filter (fun row => res.xval (keyOfRow row))
              (extractEntries inp)).count
                (⟨d, s, info.batch, subj, info.teacher, r⟩ : Row) =
              (extractEntries inp).count
                (⟨d, s, info.batch, subj, info.teacher, r⟩ : Row) :=
            List.count_filter hx
          rw [hcf]
          exact count_extractEntries hndr hndb hnds hmem hd hs hr hbm
        · intro row hrow
          have hmemf : row ∈ (extractEntries inp).filter fun row =>
              res.xval (keyOfRow row) := by
            rw [hf]
            exact (sortRows_perm _).mem_iff.mp hrow
          exact mem_extractEntries_batch (List.mem_of_mem_filter hmemf)
    · intro hallfalse
      have hfe : ((extractEntries inp).filter fun row =>
          res.xval (keyOfRow row)) = [] := by
        apply List.filter_eq_nil_iff.mpr
        intro row hrow
        simp [hallfalse row hrow]
      unfold solve_timetable_debug
      rw [hb, if_pos hst, extractTable_ok inp res.xval hv, hfe]
  · intro hroom hne
    rcases hne with ⟨b, hbm, si, hsi, hbad⟩
    cases hr : inp.rooms with
    | nil => exact absurd hr hroom
    | cons r1 rest =>
      have hr1 : r1 ∈ inp.rooms := by
        rw [hr]
        exact List.mem_cons_self _ _
      have hrowmem : (⟨"Mon", 1, b, si.1, si.2.teacher, r1⟩ : Row) ∈
          extractEntries inp :=
        mem_extractEntries_intro (by decide) (by decide) hbm hsi hr1
      have hbadkey : keyOfRow (⟨"Mon", 1, b, si.1, si.2.teacher, r1⟩ : Row) ∉
          xKeys inp := by
        intro hk
        rcases mem_xKeys.mp hk with ⟨si', hsi', d', _, s', _, r', _, heq⟩
        simp only [keyOfRow, Prod.mk.injEq] at heq
        have h1 : b = si'.2.batch := heq.1
        have h2 : si.1 = si'.1 := heq.2.1
        have h3 : si' = si := assoc_uniq hnds hsi' hsi h2.symm
        rw [h3] at h1
        exact hbad h1.symm
      rcases extract_go_error inp res.xval (extractEntries inp) _ hrowmem
        hbadkey [] with ⟨k, hk⟩
      refine ⟨k, ?_⟩
      unfold solve_timetable_debug
      rw [hb, if_pos hst]
      have hext : extractTable inp res.xval = Except.error k := hk
      rw [hext]

theorem extraction_rows_witness :
    ∃ rows, solve_timetable_debug inpM resOptW = Except.ok (some rows) ∧
      rows.count ⟨"Mon", 1, "B1", "Math", "T1", "R1"⟩ = 1 := by
  have h := extraction_rows inpM resOptW csM rfl (Or.inl rfl) (by decide)
    (by decide) (by decide)
  rcases (h.1 (by decide)).1 "Math" infoMath (by decide) "Mon" (by decide) 1
    (by decide) "R1" (by decide) (by decide) (by decide) with ⟨rows, hr, hcount, _⟩
  exact ⟨rows, hr, hcount⟩

/-- C1 (counterexample): the model built for a single subject demanding 36
weekly sessions with one room has no satisfying assignment at all — at most
25 decision variables exist for the subject and the weekly slack is capped
at 10, so `count + slack = 36` is unsatisfiable.  Structural infeasibility
therefore can occur, refuting the claim that every input yields a feasible
model. -/
theorem always_feasible_counterexample :
    buildModel inpInf = Except.ok csInf ∧
    ¬ ∃ (xval : Key → Bool) (slacks : List Nat),
        satModel csInf xval slacks = true := by
  refine ⟨rfl, ?_⟩
  rintro ⟨xval, slacks, hsat⟩
  have hmem : mkSubjC inpInf ("Math", ⟨"B1", "T1", 36⟩) ∈ csInf :=
    mem_fullCons_subj (by decide)
  rcases satModel_sat_of_mem hsat hmem with ⟨s, _, hsc⟩
  rcases (satCb_eqR rfl).mp hsc with ⟨hub, heq⟩
  have hub' : s ≤ 10 := hub
  have heq' : sumLhs xval (subjectLhs inpInf "Math" ⟨"B1", "T1", 36⟩) + s = 36 :=
    heq
  have hle := sumLhs_le_length xval (subjectLhs inpInf "Math" ⟨"B1", "T1", 36⟩)
  have hlen : (subjectLhs inpInf "Math" ⟨"B1", "T1", 36⟩).length = 25 := rfl
  rw [hlen] at hle
  omega

/-- C1 (amended): the model is feasible for every input in which each
subject's `sessions_per_week` is at most its slack bound 10: scheduling
nothing and setting every equality slack to its right-hand side satisfies
every constraint.  (For larger `sessions_per_week` structural infeasibility
can occur, as the counterexample shows.) -/
theorem feasible_when_sessions_le_slack_bound (inp : Input)
    (cs : List ConstraintInst) (hb : buildModel inp = Except.ok cs)
    (hsmall : ∀ si ∈ inp.subjects, si.2.sessions_per_week ≤ 10) :
    ∃ (xval : Key → Bool) (slacks : List Nat),
      satModel cs xval slacks = true := by
  have hcs := buildModel_ok_eq hb
  subst hcs
  refine ⟨fun _ => false, slackFill (fullCons inp), ?_⟩
  unfold satModel
  rw [Bool.and_eq_true]
  constructor
  · simp [slackFill]
  · apply List.all_eq_true.mpr
    intro p hp
    rw [slackFill, zip_map_self] at hp
    rcases List.mem_map.mp hp with ⟨c, hc, rfl⟩
    have key : (c.rel = Rel.leR) ∨ (c.rel = Rel.eqR ∧ c.rhs ≤ c.slackUB) := by
      rcases List.mem_append.mp hc with hc' | hfix
      · rcases List.mem_append.mp hc' with hc'' | hteach
        · rcases List.mem_append.mp hc'' with hc3 | hroom
          · rcases List.mem_append.mp hc3 with hsubj | hbatch
            · rcases List.mem_map.mp hsubj with ⟨si, hsi, rfl⟩
              exact Or.inr ⟨rfl, hsmall si hsi⟩
            · exact Or.inl (kind_batchC hbatch).2
          · exact Or.inl (kind_roomC hroom).2
        · exact Or.inl (kind_teacherC hteach).2
      · rcases kind_fixedC hfix with ⟨_, hrel, hrhs, hub⟩
        exact Or.inr ⟨hrel, by rw [hrhs, hub]⟩
    rcases key with hle | ⟨heq, hrhs⟩
    · have hval : (match c.rel with | Rel.eqR => c.rhs | Rel.leR => 0) = 0 := by
        rw [hle]
      rw [hval]
      exact (satCb_leR hle).mpr
        ⟨Nat.zero_le _, by rw [sumLhs_false]; exact Nat.zero_le _⟩
    · have hval : (match c.rel with | Rel.eqR => c.rhs | Rel.leR => 0) = c.rhs := by
        rw [heq]
      rw [hval]
      exact (satCb_eqR heq).mpr ⟨hrhs, by simp [sumLhs_false]⟩

theorem feasible_when_sessions_le_slack_bound_witness :
    ∃ (xval : Key → Bool) (slacks : List Nat),
      satModel csM xval slacks = true :=
  feasible_when_sessions_le_slack_bound inpM csM rfl (by decide)

/-- C4: each subject of the catalog has exactly one subject-weekly
constraint: the sum of its decision variables over all days, slots and
rooms, plus one slack variable bounded to `[0, 10]`, equals its
`sessions_per_week`; consequently every satisfying assignment realizes
scheduled-session count plus slack equal to `sessions_per_week` with the
slack in `[0, 10]`. -/
theorem subject_weekly_constraint (inp : Input) (cs : List ConstraintInst)
    (hb : buildModel inp = Except.ok cs)
    (hnds : (inp.subjects.map Prod.fst).Nodup)
    (subj : String) (info : SubjInfo) (hmem : (subj, info) ∈ inp.subjects) :
    (cs.countP fun c => c.kind == "Subject" && c.who == subj) = 1 ∧
    (∃ c ∈ cs, c.kind = "Subject" ∧ c.who = subj ∧ c.ctx = info.batch ∧
      c.rel = Rel.eqR ∧ c.rhs = info.sessions_per_week ∧ c.slackUB = 10 ∧
      c.lhs = subjectLhs inp subj info) ∧
    (∀ xval slacks, satModel cs xval slacks = true →
      ∃ s, s ≤ 10 ∧
        sumLhs xval (subjectLhs inp subj info) + s = info.sessions_per_week) := by
  have hcs := buildModel_ok_eq hb
  subst hcs
  refine ⟨?_, ?_, ?_⟩
  · have hsub : (subjectConsL inp).countP
        (fun c => c.kind == "Subject" && c.who == subj) = 1 := by
      rw [subjectConsL, List.countP_map]
      have hcong : inp.subjects.countP
          ((fun c => c.kind == "Subject" && c.who == subj) ∘ mkSubjC inp) =
          inp.subjects.countP (fun si => si.1 == subj) := by
        apply List.countP_congr
        intro si _
        simp [mkSubjC]
      rw [hcong]
      have h1 : inp.subjects.countP (fun si => si.1 == subj) =
          (inp.subjects.map Prod.fst).countP (fun x => x == subj) := by
        rw [List.countP_map]
        rfl
      have h2 : (inp.subjects.map Prod.fst).countP (fun x => x == subj) =
          (inp.subjects.map Prod.fst).count subj := rfl
      rw [h1, h2]
      exact List.count_eq_one_of_mem hnds
        (List.mem_map.mpr ⟨(subj, info), hmem, rfl⟩)
    have hbatch : (batchConsL inp).countP
        (fun c => c.kind == "Subject" && c.who == subj) = 0 := by
      apply List.countP_eq_zero.mpr
      intro c hc
      have hk := (kind_batchC hc).1
      simp [hk]
    have hroom : (roomConsL inp).countP
        (fun c => c.kind == "Subject" && c.who == subj) = 0 := by
      apply List.countP_eq_zero.mpr
      intro c hc
      have hk := (kind_roomC hc).1
      simp [hk]
    have hteach : (teacherConsL inp).countP
        (fun c => c.kind == "Subject" && c.who == subj) = 0 := by
      apply List.countP_eq_zero.mpr
      intro c hc
      rcases (kind_teacherC hc).1 with hk | hk <;> simp [hk]
    have hfix : (inp.fixed_classes.map mkFixedC).countP
        (fun c => c.kind == "Subject" && c.who == subj) = 0 := by
      apply List.countP_eq_zero.mpr
      intro c hc
      have hk := (kind_fixedC hc).1
      simp [hk]
    simp only [fullCons, List.countP_append, hsub, hbatch, hroom, hteach, hfix]
  · exact ⟨mkSubjC inp (subj, info), mem_fullCons_subj hmem,
      rfl, rfl, rfl, rfl, rfl, rfl, rfl⟩
  · intro xval slacks hsat
    rcases satModel_sat_of_mem hsat (mem_fullCons_subj hmem) with ⟨s, _, hsc⟩
    rcases (satCb_eqR rfl).mp hsc with ⟨hub, heq⟩
    exact ⟨s, hub, heq⟩

theorem subject_weekly_constraint_witness :
    (csM.countP fun c => c.kind == "Subject" && c.who == "Math") = 1 ∧
    (∃ c ∈ csM, c.kind = "Subject" ∧ c.who = "Math" ∧ c.ctx = infoMath.batch ∧
      c.rel = Rel.eqR ∧ c.rhs = infoMath.sessions_per_week ∧ c.slackUB = 10 ∧
      c.lhs = subjectLhs inpM "Math" infoMath) ∧
    (∀ xval slacks, satModel csM xval slacks = true →
      ∃ s, s ≤ 10 ∧
        sumLhs xval (subjectLhs inpM "Math" infoMath) + s =
          infoMath.sessions_per_week) :=
  subject_weekly_constraint inpM csM rfl (by decide) "Math" infoMath (by decide)

/-- C5: if the external solver reports neither an optimal nor a feasible
solution, `solve_timetable_debug` signals failure and returns no timetable
(the Python `return None`), never a partial table. -/
theorem no_solution_returns_none (inp : Input) (res : SolverResult)
    (cs : List ConstraintInst) (hb : buildModel inp = Except.ok cs)
    (h1 : res.status ≠ SolveStatus.optimal)
    (h2 : res.status ≠ SolveStatus.feasible) :
    solve_timetable_debug inp res = Except.ok none := by
  unfold solve_timetable_debug
  rw [hb]
  rw [if_neg]
  rintro (h | h)
  · exact h1 h
  · exact h2 h

theorem no_solution_returns_none_witness :
    solve_timetable_debug inpM resU = Except.ok none :=
  no_solution_returns_none inpM resU csM rfl (by decide) (by decide)

/-- C6: the diagnostic report is complete and sound: it holds exactly one
entry per slack variable with positive realized value (their number equals
the number of positive slacks), every positive slack at position `i`
contributes the entry naming its constraint's kind, entity and time
context together with the slack magnitude, and no entry has magnitude 0. -/
theorem violation_report_complete (inp : Input) (cs : List ConstraintInst)
    (_hb : buildModel inp = Except.ok cs) (slacks : List Nat)
    (hlen : slacks.length = cs.length) :
    ((violations cs slacks).length =
      (slacks.filter fun v => decide (0 < v)).length) ∧
    (∀ (i : Nat) (h1 : i < cs.length) (h2 : i < slacks.length),
      0 < slacks.get ⟨i, h2⟩ →
      ((cs.get ⟨i, h1⟩).kind, (cs.get ⟨i, h1⟩).who, (cs.get ⟨i, h1⟩).ctx,
        slacks.get ⟨i, h2⟩) ∈ violations cs slacks) ∧
    (∀ v ∈ violations cs slacks, 0 < v.2.2.2) := by
  refine ⟨violations_length hlen, ?_, ?_⟩
  · intro i h1 h2 hpos
    exact violations_mem (get_mem_zip i h1 h2) hpos
  · intro v hv
    rcases List.mem_filterMap.mp hv with ⟨p, _, hp⟩
    by_cases h : 0 < p.2
    · rw [if_pos h] at hp
      cases hp
      exact h
    · rw [if_neg h] at hp
      cases hp

theorem violation_report_complete_witness :
    ((violations csM slacksW).length =
      (slacksW.filter fun v => decide (0 < v)).length) ∧
    (∀ (i : Nat) (h1 : i < csM.length) (h2 : i < slacksW.length),
      0 < slacksW.get ⟨i, h2⟩ →
      ((csM.get ⟨i, h1⟩).kind, (csM.get ⟨i, h1⟩).who, (csM.get ⟨i, h1⟩).ctx,
        slacksW.get ⟨i, h2⟩) ∈ violations csM slacksW) ∧
    (∀ v ∈ violations csM slacksW, 0 < v.2.2.2) :=
  violation_report_complete inpM csM rfl slacksW (by decide)

/-- C7: the declared objective is the unweighted additive sum of every
slack variable of every constraint instance of every family: the model has
one slack per instance across the five families (the stated count), the
objective evaluates to the plain sum of the slack values, and raising any
single slack by `d` raises the objective by exactly `d`, regardless of
which family the slack belongs to. -/
theorem objective_unweighted_sum (inp : Input) (cs : List ConstraintInst)
    (hb : buildModel inp = Except.ok cs) :
    cs.length = inp.subjects.length + inp.batches.length * 25 +
      inp.rooms.length * 25 + inp.teachers.length * 6 +
      inp.fixed_classes.length ∧
    (∀ slacks : List Nat, slacks.length = cs.length →
      objective cs slacks = slacks.sum ∧
      ∀ (i : Nat) (h : i < slacks.length) (d : Nat),
        objective cs (slacks.set i (slacks.get ⟨i, h⟩ + d)) =
          objective cs slacks + d) := by
  have hcs := buildModel_ok_eq hb
  subst hcs
  refine ⟨by rw [fullCons_length], ?_⟩
  intro slacks hlen
  refine ⟨objective_eq_sum hlen, ?_⟩
  intro i h d
  have hlen2 : (slacks.set i (slacks.get ⟨i, h⟩ + d)).length =
      (fullCons inp).length := by
    rw [List.length_set]
    exact hlen
  rw [objective_eq_sum hlen2, objective_eq_sum hlen, sum_set_add slacks i h d]

theorem objective_unweighted_sum_witness :
    csM.length = inpM.subjects.length + inpM.batches.length * 25 +
      inpM.rooms.length * 25 + inpM.teachers.length * 6 +
      inpM.fixed_classes.length ∧
    (∀ slacks : List Nat, slacks.length = csM.length →
      objective csM slacks = slacks.sum ∧
      ∀ (i : Nat) (h : i < slacks.length) (d : Nat),
        objective csM (slacks.set i (slacks.get ⟨i, h⟩ + d)) =
          objective csM slacks + d) :=
  objective_unweighted_sum inpM csM rfl

/-- C8: for every (batch, day, slot) triple of the input grid, every
satisfying assignment of the model keeps the number of classes scheduled
for that batch at that day/slot (over all its subjects and rooms) at most
`1` plus the triple's batch-clash slack, whose value lies in `[0, 1]`. -/
theorem batch_clash_bound (inp : Input) (cs : List ConstraintInst)
    (hb : buildModel inp = Except.ok cs) (b : String) (hbm : b ∈ inp.batches)
    (d : String) (hd : d ∈ days) (s : Nat) (hs : s ∈ slots)
    (xval : Key → Bool) (slacks : List Nat)
    (hsat : satModel cs xval slacks = true) :
    ∃ sl, sl ≤ 1 ∧ sumLhs xval (batchLhs inp b d s) ≤ 1 + sl := by
  have hcs := buildModel_ok_eq hb
  subst hcs
  rcases satModel_sat_of_mem hsat (mem_fullCons_batch hbm hd hs) with ⟨sl, _, hsc⟩
  rcases (satCb_leR rfl).mp hsc with ⟨hub, hle⟩
  exact ⟨sl, hub, hle⟩

theorem batch_clash_bound_witness :
    ∃ sl, sl ≤ 1 ∧ sumLhs xvalW (batchLhs inpM "B1" "Mon" 1) ≤ 1 + sl :=
  batch_clash_bound inpM csM rfl "B1" (by decide) "Mon" (by decide) 1 (by decide)
    xvalW slacksW (by decide)

/-- C9: a subject whose `sessions_per_week` exceeds the 25 × |rooms|
distinct (day, slot, room) combinations available to its batch has, in
every satisfying assignment, a strictly positive weekly slack (still within
its bound 10), and the shortfall appears in the violation report as a
`"Subject"` entry naming the subject, its batch, and the slack magnitude. -/
theorem overfull_subject_slack_positive (inp : Input) (cs : List ConstraintInst)
    (hb : buildModel inp = Except.ok cs) (subj : String) (info : SubjInfo)
    (hmem : (subj, info) ∈ inp.subjects)
    (hover : 25 * inp.rooms.length < info.sessions_per_week)
    (xval : Key → Bool) (slacks : List Nat)
    (hsat : satModel cs xval slacks = true) :
    ∃ s, 0 < s ∧ s ≤ 10 ∧
      sumLhs xval (subjectLhs inp subj info) + s = info.sessions_per_week ∧
      ("Subject", subj, info.batch, s) ∈ violations cs slacks := by
  have hcs := buildModel_ok_eq hb
  subst hcs
  rcases satModel_sat_of_mem hsat (mem_fullCons_subj hmem) with ⟨s, hz, hsc⟩
  rcases (satCb_eqR rfl).mp hsc with ⟨hub, heq⟩
  have hub' : s ≤ 10 := hub
  have heq' : sumLhs xval (subjectLhs inp subj info) + s =
      info.sessions_per_week := heq
  have hle := sumLhs_le_length xval (subjectLhs inp subj info)
  rw [subjectLhs_length] at hle
  have hpos : 0 < s := by omega
  exact ⟨s, hpos, hub', heq', violations_mem hz hpos⟩

theorem overfull_subject_slack_positive_witness :
    ∃ s, 0 < s ∧ s ≤ 10 ∧
      sumLhs xval9 (subjectLhs inp9 "Math" ⟨"B1", "T1", 26⟩) + s = 26 ∧
      ("Subject", "Math", "B1", s) ∈ violations cs9 slacks9 :=
  overfull_subject_slack_positive inp9 cs9 rfl "Math" ⟨"B1", "T1", 26⟩
    (by decide) (by decide) xval9 slacks9 (by decide)

/-- C10: no satisfying assignment ever over-schedules a subject: its number
of scheduled sessions across all days, slots and rooms never exceeds its
`sessions_per_week`, because the weekly equality's non-negative slack can
absorb a shortfall but never an excess. -/
theorem subject_never_overscheduled (inp : Input) (cs : List ConstraintInst)
    (hb : buildModel inp = Except.ok cs) (subj : String) (info : SubjInfo)
    (hmem : (subj, info) ∈ inp.subjects) (xval : Key → Bool)
    (slacks : List Nat) (hsat : satModel cs xval slacks = true) :
    sumLhs xval (subjectLhs inp subj info) ≤ info.sessions_per_week := by
  have hcs := buildModel_ok_eq hb
  subst hcs
  rcases satModel_sat_of_mem hsat (mem_fullCons_subj hmem) with ⟨s, _, hsc⟩
  rcases (satCb_eqR rfl).mp hsc with ⟨_, heq⟩
  have heq' : sumLhs xval (subjectLhs inp subj info) + s =
      info.sessions_per_week := heq
  omega

theorem subject_never_overscheduled_witness :
    sumLhs xvalW (subjectLhs inpM "Math" infoMath) ≤
      infoMath.sessions_per_week :=
  subject_never_overscheduled inpM csM rfl "Math" infoMath (by decide)
    xvalW slacksW (by decide)

end Solver3
